import Mathlib

/-!
Verification of the station-comms weather-station bridge.

The development shallowly embeds the Rust sources (`station.rs`, `sensor.rs`,
`main.rs`) as executable Lean definitions and proves the specified
properties about them.  Machine integers are modelled as `Nat`/`Int` with
explicit bounds where overflow matters; `Instant`/`Duration` are modelled as
`Nat` milliseconds; channels become explicit output lists; mutexed shared
state becomes explicit state passing.
-/

namespace StationComms

/-! ## Wire value model

Modelled from the spec: the `scode_rs` crate (the `Code` value model) is not
part of the repository sources; per the spec a parameter value is a tagged
variant `Int32 | Float32 | Bytes` with explicit conversion predicates, and
"Bytes may be interpreted as UTF-8 text when expected".  `f32` values are
represented symbolically (by their wire bits, their integer source, or their
decimal text); none of the verified properties computes with float
arithmetic. -/

inductive F32 where
  | ofBits (bits : Nat)
  | ofInt (i : Int)
  | ofDec (text : List Nat)
  deriving DecidableEq, Repr

inductive ParamValue where
  | int (i : Int)
  | float (bits : Nat)
  | bytes (bs : List Nat)
  deriving DecidableEq, Repr

structure ParamSend where
  letter : Nat
  value : ParamValue
  deriving DecidableEq, Repr

structure CodeSend where
  letter : Nat
  number : Nat
  params : List ParamSend
  deriving DecidableEq, Repr

/-- Modelled from the spec: `scode_rs` `cast_u8` conversion predicate —
succeeds exactly on integer values in the `u8` range. -/
def castU8 : ParamValue → Option Nat
  | .int i => if 0 ≤ i ∧ i < 256 then some i.toNat else none
  | .float _ => none
  | .bytes _ => none

/-- Modelled from the spec: `scode_rs` `cast_u64` conversion predicate —
succeeds exactly on non-negative integer values. -/
def castU64 : ParamValue → Option Nat
  | .int i => if 0 ≤ i then some i.toNat else none
  | .float _ => none
  | .bytes _ => none

/-- Decimal ASCII digits of a natural number. -/
def natDigits (n : Nat) : List Nat :=
  (Nat.toDigits 10 n).map Char.toNat

/-- Modelled from the spec: `scode_rs` `cast_bytes` — byte values yield their
bytes; numeric values yield their decimal text. -/
def castBytes : ParamValue → List Nat
  | .bytes bs => bs
  | .int i => if i < 0 then 45 :: natDigits i.natAbs else natDigits i.natAbs
  | .float bits => natDigits bits

/-- Modelled from the spec: `scode_rs` `cast_f32` — native numeric values
convert; byte values fail, carrying the bytes for the caller to re-parse. -/
def castF32 : ParamValue → Except (List Nat) F32
  | .float bits => .ok (.ofBits bits)
  | .int i => .ok (.ofInt i)
  | .bytes bs => .error bs

def isDigit (b : Nat) : Bool := 48 ≤ b && b ≤ 57

/-- Recogniser for the mantissa of a decimal float literal:
`digits ['.' digits?] | '.' digits`, at least one digit overall. -/
def mantissaOk (bs : List Nat) : Bool :=
  let p := bs.span isDigit
  match p.2 with
  | [] => !p.1.isEmpty
  | 46 :: rest =>
    let q := rest.span isDigit
    q.2.isEmpty && (!p.1.isEmpty || !q.1.isEmpty)
  | _ => false

def stripSign (bs : List Nat) : List Nat :=
  match bs with
  | 43 :: r => r
  | 45 :: r => r
  | r => r

/-- Modelled from the spec: acceptance of a "UTF-8 decimal string" as an
`f32` (`str::parse::<f32>` after a UTF-8 check).  A byte list is accepted
when it is a signed decimal literal with optional exponent; such literals
are pure ASCII, so the UTF-8 validity check is subsumed. -/
def parseF32 (bs : List Nat) : Option F32 :=
  let bs' := stripSign bs
  let p := bs'.span (fun b => b ≠ 101 && b ≠ 69)
  let ok :=
    match p.2 with
    | [] => mantissaOk bs'
    | _ :: e =>
      let e' := stripSign e
      mantissaOk p.1 && !e'.isEmpty && e'.all isDigit
  if ok then some (.ofDec bs) else none

/-- `CodeSend::find` (scode_rs): first parameter with the given letter.
Modelled from the spec: parameter order is preserved. -/
def CodeSend.find (c : CodeSend) (l : Nat) : Option ParamSend :=
  c.params.find? (fun p => p.letter = l)

/-! ## Byte letters used by the program -/

def ascS : Nat := 83
def ascO : Nat := 79
def ascM : Nat := 77
def ascV : Nat := 86
def ascN : Nat := 78
def ascU : Nat := 85
def ascE : Nat := 69
def ascD : Nat := 68

/-! ## Rule (src/station.rs lines 15-55) -/

structure Rule where
  letter : Option Nat
  number : Option Nat
  deriving DecidableEq, Repr

def Rule.new (letter number : Nat) : Rule := ⟨some letter, some number⟩

def Rule.matches (r : Rule) (code : CodeSend) : Bool :=
  (match r.letter with
   | some l => l = code.letter
   | none => true) &&
  (match r.number with
   | some n => n = code.number
   | none => true)

/-! ## Command manager (src/station.rs lines 163-234)

A `Waiting` entry's `notify : Sender<(u8,u8)>` is modelled by a channel
identifier; a notification is recorded as `(channel id, payload)`. -/

structure Waiting where
  key : Nat × Nat
  code : CodeSend
  due : Nat
  retry : Nat
  notify : Nat
  deriving DecidableEq, Repr

/-- `Vec::swap_remove(i)`: replace element `i` with the last element and
pop the last element. -/
def swapRemove (l : List α) (i : Nat) : List α :=
  match l.getLast? with
  | none => []
  | some last => (l.set i last).dropLast

/-- The `O1` acknowledgement handler `CommandManager::on_command`
(src/station.rs lines 184-203).  Returns the new waiter list, the
notifications sent (channel id, payload), and the `accepted` flag. -/
def onCommand (waiting : List Waiting) (code : CodeSend) :
    List Waiting × List (Nat × (Nat × Nat)) × Bool :=
  match code.params.head? with
  | none => (waiting, [], false)
  | some c =>
    match castU8 c.value with
    | none => (waiting, [], false)
    | some number =>
      match waiting.findIdx? (fun v => v.key = (c.letter, number)) with
      | some i =>
        match waiting[i]? with
        | some v => (swapRemove waiting i, [(v.notify, (c.letter, number))], true)
        | none => (waiting, [], true)
      | none => (waiting, [], true)

/-- `CommandManager::command_guarentee` (src/station.rs lines 209-219):
sends the code and pushes a waiter.  Returns the new waiter list and the
code sent. -/
def commandGuarentee (waiting : List Waiting) (code : CodeSend)
    (notify : Nat) (retry : Nat) (now : Nat) : List Waiting × CodeSend :=
  (waiting ++ [⟨(code.letter, code.number), code, now + retry, retry, notify⟩], code)

/-- `CommandManager::update` (src/station.rs lines 221-229): for each waiter
whose `due ≤ now`, resend its code and reset its due.  Returns the new
waiter list and the codes resent, in list order. -/
def CMupdate (waiting : List Waiting) (now : Nat) : List Waiting × List CodeSend :=
  match waiting with
  | [] => ([], [])
  | w :: rest =>
    let r := CMupdate rest now
    if w.due ≤ now then ({ w with due := now + w.retry } :: r.1, w.code :: r.2)
    else (w :: r.1, r.2)

/-- `CommandManager::earliest_due` (src/station.rs lines 231-234). -/
def earliestDue (waiting : List Waiting) : Option Nat :=
  (waiting.map (fun v => v.due)).min?

/-! ## Sensor catalogue (src/sensor.rs)

`BTreeMap<u8, Sensor>` is modelled as an association list sorted by key;
`BTreeMap<Arc<str>, u8>` as an association list with replace-on-insert
semantics (only lookups of it are specified, for which insertion order is
irrelevant).  `String::from_utf8_lossy` decoding is modelled as the identity
on byte lists: the catalogue logic is agnostic to the name representation. -/

structure Sensor where
  name : List Nat
  unit : List Nat
  id : Nat
  value : F32
  lastUpdate : Nat
  auto : Bool
  deriving DecidableEq, Repr

structure Sensors where
  sensors : List (Nat × Sensor)
  map : List (List Nat × Nat)
  deriving DecidableEq, Repr

/-- Association-list lookup (`BTreeMap::get`). -/
def alookup {κ α : Type} [DecidableEq κ] (l : List (κ × α)) (k : κ) : Option α :=
  (l.find? (fun e => e.1 = k)).map (fun e => e.2)

/-- In-place update of the entry with key `k` (`BTreeMap::get_mut`). -/
def aupdate {κ α : Type} [DecidableEq κ] (l : List (κ × α)) (k : κ) (f : α → α) :
    List (κ × α) :=
  l.map (fun e => if e.1 = k then (e.1, f e.2) else e)

/-- `BTreeMap::insert` on the id-sorted list: insert in key order,
replacing an existing entry with the same key. -/
def sortedInsert (l : List (Nat × Sensor)) (k : Nat) (v : Sensor) :
    List (Nat × Sensor) :=
  match l with
  | [] => [(k, v)]
  | e :: rest =>
    if k < e.1 then (k, v) :: e :: rest
    else if k = e.1 then (k, v) :: rest
    else e :: sortedInsert rest k v

/-- `BTreeMap::insert` on the name index: replace the binding if the key is
present, otherwise add it. -/
def mapInsert (l : List (List Nat × Nat)) (k : List Nat) (v : Nat) :
    List (List Nat × Nat) :=
  if (l.find? (fun e => e.1 = k)).isSome then
    l.map (fun e => if e.1 = k then (k, v) else e)
  else l ++ [(k, v)]

/-- The `V`-parameter extraction of `Sensors::put` (src/sensor.rs lines
61-68): cast to `f32`, falling back to parsing the bytes as a UTF-8
decimal string. -/
def extractValue (c : CodeSend) : Option F32 :=
  match c.find ascV with
  | none => none
  | some p =>
    match castF32 p.value with
    | .ok v => some v
    | .error bs => parseF32 bs

/-- `Sensors::put` (src/sensor.rs lines 56-95). -/
def Sensors.put (s : Sensors) (code : CodeSend) (now : Nat) : Sensors × Bool :=
  if code.letter ≠ ascS then (s, false)
  else
    match extractValue code with
    | none => (s, false)
    | some value =>
      match alookup s.sensors code.number with
      | some _ =>
        ({ s with
            sensors := aupdate s.sensors code.number
              (fun sen => { sen with lastUpdate := now, value := value }) },
          true)
      | none =>
        match code.find ascN with
        | none => (s, false)
        | some np =>
          match code.find ascU with
          | none => (s, false)
          | some up =>
            let sensor : Sensor :=
              { name := castBytes np.value
                unit := castBytes up.value
                id := code.number
                value := value
                lastUpdate := now
                auto := false }
            ({ s with
                map := mapInsert s.map sensor.name sensor.id
                sensors := sortedInsert s.sensors sensor.id sensor },
              true)

/-- `Sensors::get` (src/sensor.rs lines 97-102). -/
def Sensors.get (s : Sensors) (name : List Nat) : Option Sensor :=
  match alookup s.map name with
  | none => none
  | some id => alookup s.sensors id

/-! ## Autos ingestion

Modelled from the spec: `Sensors::autos_callback` is called from
src/main.rs line 120 but its definition is not among the given sources.
Per the spec, `ingest_autos(code)` applies to `M102` records, builds a
64-bit bitset by processing parameters in order (`E{n}` sets bit `n`,
`D{n}` clears bit `n`, `V{x}` overwrites the bitset to `x`), then sets
each sensor's `auto = (bitset >> id) & 1`.  Parameters whose value does
not convert are skipped. -/

def u64Mask : Nat := 2 ^ 64 - 1

def autosStep (bits : Nat) (p : ParamSend) : Nat :=
  if p.letter = ascE then
    match castU8 p.value with
    | some n => (bits ||| ((1 <<< n) % 2 ^ 64)) &&& u64Mask
    | none => bits
  else if p.letter = ascD then
    match castU8 p.value with
    | some n => bits &&& (u64Mask ^^^ ((1 <<< n) % 2 ^ 64))
    | none => bits
  else if p.letter = ascV then
    match castU64 p.value with
    | some x => x &&& u64Mask
    | none => bits
  else bits

def autosBitset (params : List ParamSend) : Nat :=
  params.foldl autosStep 0

def ingestAutos (s : Sensors) (code : CodeSend) : Sensors × Bool :=
  if code.letter = ascM ∧ code.number = 102 then
    let bits := autosBitset code.params
    ({ s with
        sensors := s.sensors.map
          (fun e => (e.1, { e.2 with auto := ((bits >>> e.2.id) &&& 1) = 1 })) },
      true)
  else (s, false)

/-! ## Station link send path (src/station.rs lines 84-131)

One iteration of `StationReader::main` in which the serial read returned
zero bytes.  `arrived` is the encoding of the code received from the
outbound channel within the 150 ms wait, if any (the binary encoder lives
in `scode_rs`; its output bytes are taken as given).  `Instant` is
milliseconds as `Nat`; clock monotonicity makes truncated subtraction
exact.  `bytes_sent : isize` is kept as `Int` to mirror the
`allotment <= 0` guard. -/

structure SendState where
  lastSend : Nat
  bytesSent : Int
  toSend : List Nat
  deriving DecidableEq, Repr

structure SendEvent where
  time : Nat
  didReset : Bool
  written : Nat
  deriving DecidableEq, Repr

/-- The write tail of the loop body (src/station.rs lines 106-114): compute
the allotment, skip when exhausted, else write `min(pending, allotment)`
bytes and drop them from the pending buffer. -/
def sendWrite (s : SendState) (now : Nat) (didReset : Bool) :
    SendState × SendEvent :=
  let allotment : Int := 60 - s.bytesSent
  if allotment ≤ 0 then (s, ⟨now, didReset, 0⟩)
  else
    let len := min s.toSend.length allotment.toNat
    ({ s with toSend := s.toSend.drop len, bytesSent := s.bytesSent + len },
      ⟨now, didReset, len⟩)

def sendStep (s : SendState) (now : Nat) (arrived : List Nat) :
    SendState × SendEvent :=
  let pending := s.toSend ++ arrived
  if pending.isEmpty then ({ s with toSend := pending }, ⟨now, false, 0⟩)
  else if now - s.lastSend > 150 then
    sendWrite ⟨now, 0, pending⟩ now true
  else
    sendWrite ⟨s.lastSend, s.bytesSent, pending⟩ now false

/-- Run the send path over a sequence of loop iterations, collecting the
write events. -/
def sendRun (s : SendState) : List (Nat × List Nat) → SendState × List SendEvent
  | [] => (s, [])
  | (now, arrived) :: rest =>
    let p := sendStep s now arrived
    let r := sendRun p.1 rest
    (r.1, p.2 :: r.2)

/-- Total bytes written inside the sliding 150 ms window starting at `t`. -/
def windowBytes (es : List SendEvent) (t : Nat) : Nat :=
  ((es.filter (fun e => t ≤ e.time && e.time ≤ t + 150)).map
    (fun e => e.written)).sum

/-- Total bytes written in a list of events. -/
def totalWritten (es : List SendEvent) : Nat :=
  (es.map (fun e => e.written)).sum

/-! ## Code router and scheduler loop (src/main.rs lines 117-215)

The three callbacks registered on the `CodeHandler` (src/main.rs lines
118-120) are, in order: the command manager's `O1` handler, the sensor
callback and the autos callback.  The registration rules of the latter two
are modelled from the spec ("applies to `S{id}` records" / "applies to
`M102` records"); their bodies are `Sensors.put` and `ingestAutos`.
Dispatch (src/station.rs lines 153-160) invokes each matching handler in
order and stops at the first that accepts. -/

structure SysState where
  waiting : List Waiting
  sensors : Sensors
  deriving DecidableEq, Repr

def dispatchAutos (st : SysState) (code : CodeSend) :
    SysState × List (Nat × (Nat × Nat)) :=
  if (Rule.new ascM 102).matches code then
    ({ st with sensors := (ingestAutos st.sensors code).1 }, [])
  else (st, [])

def dispatchSensor (st : SysState) (now : Nat) (code : CodeSend) :
    SysState × List (Nat × (Nat × Nat)) :=
  if (Rule.mk (some ascS) none).matches code then
    let r := st.sensors.put code now
    let st := { st with sensors := r.1 }
    if r.2 then (st, []) else dispatchAutos st code
  else dispatchAutos st code

def dispatch (st : SysState) (now : Nat) (code : CodeSend) :
    SysState × List (Nat × (Nat × Nat)) :=
  if (Rule.new ascO 1).matches code then
    let r := onCommand st.waiting code
    let st := { st with waiting := r.1 }
    if r.2.2 then (st, r.2.1)
    else dispatchSensor st now code
  else dispatchSensor st now code

/-- The scheduler thread's channel message type (src/main.rs lines 48-52);
requests carry their action string. -/
inductive ChannelType where
  | code (c : CodeSend)
  | codeErr
  | request (action : String)
  deriving DecidableEq, Repr

structure SchedState where
  sys : SysState
  rapid : Bool
  rapidDue : Nat
  rapidUpdateDue : Nat
  updateDue : Nat
  deriving DecidableEq, Repr

/-- The timeout computation of the scheduler loop
(src/main.rs lines 129-142). -/
def schedTimeout (s : SchedState) : Nat :=
  let t :=
    match earliestDue s.sys.waiting with
    | some due => if due < s.updateDue then due else s.updateDue
    | none => s.updateDue
  if s.rapid then min (min t s.rapidDue) s.rapidUpdateDue else t

/-- The maturation pass of the scheduler loop (src/main.rs lines 146-162
and 165-182): tick the command manager, fire the normal update, fire the
rapid update, clear rapid mode.  `cmdDue` is the `cmd_due` captured at the
top of the iteration.  Returns the new state, the codes resent by the
command manager, and the update requests sent (their `rapid` flags in
order). -/
def maturePass (s : SchedState) (now : Nat) (cmdDue : Option Nat) :
    SchedState × List CodeSend × List Bool :=
  let p :=
    match cmdDue with
    | some due => if due ≤ now then CMupdate s.sys.waiting now else (s.sys.waiting, [])
    | none => (s.sys.waiting, [])
  let s := { s with sys := { s.sys with waiting := p.1 } }
  let q :=
    if s.updateDue ≤ now then ({ s with updateDue := now + 60000 }, [false])
    else (s, ([] : List Bool))
  let s := q.1
  let r :=
    if s.rapid ∧ s.rapidUpdateDue ≤ now then
      ({ s with rapidUpdateDue := now + 2500 }, [true])
    else (s, ([] : List Bool))
  let s := r.1
  let s := if s.rapid ∧ s.rapidDue ≤ now then { s with rapid := false } else s
  (s, p.2, q.2 ++ r.2)

structure SchedResult where
  state : SchedState
  resends : List CodeSend
  updates : List Bool
  notifs : List (Nat × (Nat × Nat))
  consumed : Bool
  deriving DecidableEq, Repr

/-- One iteration of the scheduler loop (src/main.rs lines 128-215).
`msg` is the message available on the event channel within the wait
window, if any; `now2` is the refreshed clock read after the wait
(src/main.rs line 165 and the `Instant::now()` calls in the receive arm),
with `now ≤ now2` on a monotone clock.  The `"info"` branch only
publishes and the unmatched action branch does nothing, so neither
changes scheduler state. -/
def schedStep (s : SchedState) (now : Nat) (msg : Option ChannelType)
    (now2 : Nat) : SchedResult :=
  let cmdDue := earliestDue s.sys.waiting
  let timeout := schedTimeout s
  if timeout < now then
    let r := maturePass s now cmdDue
    ⟨r.1, r.2.1, r.2.2, [], false⟩
  else
    match msg with
    | none =>
      let r := maturePass s now2 cmdDue
      ⟨r.1, r.2.1, r.2.2, [], false⟩
    | some (.code c) =>
      let r := dispatch s.sys now2 c
      ⟨{ s with sys := r.1 }, [], [], r.2, true⟩
    | some .codeErr => ⟨s, [], [], [], true⟩
    | some (.request a) =>
      if a = "info" then ⟨s, [], [], [], true⟩
      else if a = "rapid-weather" then
        ⟨{ s with rapid := true, rapidDue := now2 + 60000, rapidUpdateDue := now2 },
          [], [], [], true⟩
      else ⟨s, [], [], [], true⟩

/-! ## Spec-side definitions

These follow the specification's words and are compared with the
definitions translated from the source. -/

/-- The spec's description of `V`-parameter extraction: "extracts parameter
`V` as float (accepting either a native float value or a UTF-8 decimal
string)"; native numeric values are accepted directly, byte values by
decimal parse. -/
def specExtractV (c : CodeSend) : Option F32 :=
  match c.find ascV with
  | none => none
  | some p =>
    match p.value with
    | .float bits => some (.ofBits bits)
    | .int i => some (.ofInt i)
    | .bytes bs => parseF32 bs

/-- The spec's description of `ingest_sensor` (spec §4.5): applies to `S`
records; if the sensor exists, updates `value` and `last_update`;
otherwise requires `N` and `U`, creates the sensor and inserts the
name-to-id entry; accepted exactly when a value was installed. -/
def ingestSensorSpec (s : Sensors) (code : CodeSend) (now : Nat) : Sensors × Bool :=
  if code.letter = ascS then
    match specExtractV code with
    | some v =>
      if (alookup s.sensors code.number).isSome then
        ({ s with
            sensors := aupdate s.sensors code.number
              (fun sen => { sen with lastUpdate := now, value := v }) },
          true)
      else
        match code.find ascN, code.find ascU with
        | some np, some up =>
          ({ s with
              map := mapInsert s.map (castBytes np.value) code.number
              sensors := sortedInsert s.sensors code.number
                { name := castBytes np.value
                  unit := castBytes up.value
                  id := code.number
                  value := v
                  lastUpdate := now
                  auto := false } },
            true)
        | _, _ => (s, false)
    | none => (s, false)
  else (s, false)

/-- The spec's description of the scheduler timeout (spec §4.6 step 1):
the minimum of `update_due` and the command manager's earliest due,
folding in `rapid_due` and `rapid_update_due` when `rapid` is set. -/
def schedTimeoutSpec (s : SchedState) : Nat :=
  let t :=
    match earliestDue s.sys.waiting with
    | some d => min d s.updateDue
    | none => s.updateDue
  if s.rapid then min (min t s.rapidDue) s.rapidUpdateDue else t

/-- The spec's description of one maturation pass at time `t` (spec §4.6
step 2): the command manager ticks exactly the due waiters, a normal
update is requested and `update_due` moves to `t + 60 s` when due, a
rapid update is requested and `rapid_update_due` moves to `t + 2500 ms`
when rapid and due, and `rapid` is cleared when rapid and `rapid_due` is
due; nothing else changes. -/
def FireSpec (s : SchedState) (t : Nat) (r : SchedResult) : Prop :=
  r.state.sys.waiting =
    s.sys.waiting.map (fun w => if w.due ≤ t then { w with due := t + w.retry } else w) ∧
  r.resends = (s.sys.waiting.filter (fun w => w.due ≤ t)).map (fun w => w.code) ∧
  r.state.updateDue = (if s.updateDue ≤ t then t + 60000 else s.updateDue) ∧
  r.updates =
    (if s.updateDue ≤ t then [false] else []) ++
      (if s.rapid ∧ s.rapidUpdateDue ≤ t then [true] else []) ∧
  r.state.rapidUpdateDue =
    (if s.rapid ∧ s.rapidUpdateDue ≤ t then t + 2500 else s.rapidUpdateDue) ∧
  r.state.rapid = (if s.rapid ∧ s.rapidDue ≤ t then false else s.rapid) ∧
  r.state.rapidDue = s.rapidDue ∧
  r.state.sys.sensors = s.sys.sensors

/-! ## Helper lemmas -/

theorem swapRemove_perm {α : Type} (l : List α) (i : Nat) (h : i < l.length) :
    (swapRemove l i).Perm (l.eraseIdx i) := by
  rcases List.eq_nil_or_concat l with rfl | ⟨ys, a, rfl⟩
  · simp at h
  · rw [List.concat_eq_append] at h ⊢
    have hsw : swapRemove (ys ++ [a]) i = ((ys ++ [a]).set i a).dropLast := by
      unfold swapRemove
      rw [List.getLast?_concat]
    rw [hsw]
    rw [List.length_append, List.length_singleton] at h
    rcases Nat.lt_or_ge i ys.length with hi | hi
    · rw [List.set_append_left _ _ hi, List.dropLast_concat,
        List.eraseIdx_eq_take_drop_succ,
        List.take_append_of_le_length (Nat.le_of_lt hi),
        List.drop_append_of_le_length (by omega),
        List.set_eq_take_cons_drop _ hi]
      exact (List.Perm.append_left _ (List.perm_append_singleton a _)).symm
    · have hie : i = ys.length := by omega
      subst hie
      rw [List.set_append_right _ _ hi, List.eraseIdx_eq_take_drop_succ,
        List.take_append_of_le_length (Nat.le_refl _),
        List.take_length]
      simp

theorem CMupdate_fst (waiting : List Waiting) (now : Nat) :
    (CMupdate waiting now).1 =
      waiting.map (fun w => if w.due ≤ now then { w with due := now + w.retry } else w) := by
  induction waiting with
  | nil => rfl
  | cons w rest ih =>
    simp only [CMupdate, List.map_cons]
    split <;> simp [ih]

theorem CMupdate_snd (waiting : List Waiting) (now : Nat) :
    (CMupdate waiting now).2 =
      (waiting.filter (fun w => w.due ≤ now)).map (fun w => w.code) := by
  induction waiting with
  | nil => rfl
  | cons w rest ih =>
    simp only [CMupdate, List.filter_cons]
    by_cases hw : w.due ≤ now <;> simp [hw, ih]

theorem earliestDue_eq_none_iff (waiting : List Waiting) :
    earliestDue waiting = none ↔ waiting = [] := by
  simp [earliestDue]

theorem earliestDue_eq_some_iff (waiting : List Waiting) (d : Nat) :
    earliestDue waiting = some d ↔
      ((∃ w ∈ waiting, w.due = d) ∧ ∀ w ∈ waiting, d ≤ w.due) := by
  unfold earliestDue
  rw [List.min?_eq_some_iff']
  simp only [List.mem_map]
  constructor
  · rintro ⟨⟨w, hw, hwd⟩, hall⟩
    exact ⟨⟨w, hw, hwd⟩, fun w hw => hall _ ⟨w, hw, rfl⟩⟩
  · rintro ⟨⟨w, hw, hwd⟩, hall⟩
    exact ⟨⟨w, hw, hwd⟩, by rintro b ⟨w, hw, rfl⟩; exact hall w hw⟩

/-! ## Claim C1 -/

/-- Claim C1 (counterexample): an inbound `O1` record with a first
parameter whose value does not cast to `u8` is rejected by the
acknowledgement handler, so `accepted = false` does not happen only on
records with no parameters. -/
theorem onCommand_uncastable_param_rejected :
    (CodeSend.mk ascO 1 [⟨ascM, .bytes [122, 122]⟩]).params ≠ [] ∧
    (onCommand [] (CodeSend.mk ascO 1 [⟨ascM, .bytes [122, 122]⟩])).2.2 = false := by
  decide

/-- Claim C1 (amended): the acknowledgement handler returns
`accepted = true` exactly when the record has a first parameter whose
value casts to `u8`, whether or not that `(letter, value)` key matches a
registered waiter; it returns `accepted = false` when the record has no
parameters or when the first parameter's value does not cast. -/
theorem onCommand_accepted_iff (waiting : List Waiting) (code : CodeSend) :
    (onCommand waiting code).2.2 = true ↔
      ∃ p, code.params.head? = some p ∧ (castU8 p.value).isSome := by
  unfold onCommand
  cases hp : code.params.head? with
  | none => simp
  | some c =>
    cases hc : castU8 c.value with
    | none => simp [hc]
    | some n =>
      cases hf : waiting.findIdx? (fun v => v.key = (c.letter, n)) with
      | none => simp [hc, hf]
      | some i => cases hg : waiting[i]? <;> simp [hc, hf, hg]

/-! ## Claim C5 -/

/-- Claim C5: when at least one waiter is registered under the key carried
by the first parameter of an `O1` acknowledgement, the handler removes
exactly the first such waiter (the result is a permutation of the list
with that single occurrence erased, so duplicates with the same key
remain) and sends the key on that waiter's notify channel. -/
theorem onCommand_removes_first_match (waiting : List Waiting)
    (code : CodeSend) (c : ParamSend) (n : Nat)
    (hp : code.params.head? = some c)
    (hc : castU8 c.value = some n)
    (hw : ∃ w ∈ waiting, w.key = (c.letter, n)) :
    ∃ i, ∃ h : i < waiting.length,
      (waiting.get ⟨i, h⟩).key = (c.letter, n) ∧
      (∀ j (hj : j < waiting.length), j < i →
        (waiting.get ⟨j, hj⟩).key ≠ (c.letter, n)) ∧
      (onCommand waiting code).1.Perm (waiting.eraseIdx i) ∧
      (onCommand waiting code).2.1 = [((waiting.get ⟨i, h⟩).notify, (c.letter, n))] ∧
      (onCommand waiting code).2.2 = true := by
  have hex : ∃ x, x ∈ waiting ∧ (fun v : Waiting => decide (v.key = (c.letter, n))) x := by
    obtain ⟨w, hw1, hw2⟩ := hw
    exact ⟨w, hw1, by simp [hw2]⟩
  have hf := List.findIdx?_eq_some_of_exists hex
  obtain ⟨hlen, hpi, hprev⟩ := List.findIdx?_eq_some_iff_getElem.mp hf
  have hres : onCommand waiting code =
      (swapRemove waiting (waiting.findIdx (fun v => v.key = (c.letter, n))),
        [((waiting.get ⟨waiting.findIdx (fun v => v.key = (c.letter, n)), hlen⟩).notify,
          (c.letter, n))],
        true) := by
    simp only [onCommand, hp, hc, hf, List.getElem?_eq_getElem hlen,
      List.get_eq_getElem]
  refine ⟨waiting.findIdx _, hlen, ?_, ?_, ?_, ?_, ?_⟩
  · simpa using hpi
  · intro j hj hji
    have := hprev j hji
    simpa using this
  · rw [hres]
    exact swapRemove_perm _ _ hlen
  · rw [hres]
  · rw [hres]

/-- Claim C5 (witness): a concrete acknowledgement clearing the sole
registered waiter. -/
theorem onCommand_removes_first_match_witness :
    (onCommand [⟨(77, 10), ⟨77, 10, []⟩, 5, 7, 3⟩]
        (CodeSend.mk ascO 1 [⟨77, .int 10⟩])).1 = [] ∧
    (onCommand [⟨(77, 10), ⟨77, 10, []⟩, 5, 7, 3⟩]
        (CodeSend.mk ascO 1 [⟨77, .int 10⟩])).2.2 = true := by
  obtain ⟨i, h, hkey, hfirst, hperm, hnotif, hacc⟩ :=
    onCommand_removes_first_match [⟨(77, 10), ⟨77, 10, []⟩, 5, 7, 3⟩]
      (CodeSend.mk ascO 1 [⟨77, .int 10⟩]) ⟨77, .int 10⟩ 10 rfl (by decide)
      ⟨⟨(77, 10), ⟨77, 10, []⟩, 5, 7, 3⟩, by decide, by decide⟩
  have hi1 : i < 1 := by simpa using h
  have hi : i = 0 := by omega
  subst hi
  exact ⟨List.Perm.eq_nil (by simpa using hperm), hacc⟩

/-! ## Claim C6 -/

/-- Claim C6: `CommandManager::update` resends the stored code of every
waiter whose `due` is at or before `now` and resets each such waiter's
`due` to `now + retry`, leaving the others unchanged; `earliest_due`
returns the minimum `due` across registered waiters, or nothing when no
waiter is registered. -/
theorem commandManager_update_earliestDue_spec (waiting : List Waiting) (now : Nat) :
    (CMupdate waiting now).1 =
      waiting.map (fun w => if w.due ≤ now then { w with due := now + w.retry } else w) ∧
    (CMupdate waiting now).2 =
      (waiting.filter (fun w => w.due ≤ now)).map (fun w => w.code) ∧
    (earliestDue waiting = none ↔ waiting = []) ∧
    (∀ d, earliestDue waiting = some d →
      (∃ w ∈ waiting, w.due = d) ∧ ∀ w ∈ waiting, d ≤ w.due) := by
  refine ⟨CMupdate_fst waiting now, CMupdate_snd waiting now,
    earliestDue_eq_none_iff waiting, ?_⟩
  intro d hd
  exact (earliestDue_eq_some_iff waiting d).mp hd

/-- Claim C6 (witness): a due waiter is resent and rescheduled while a
not-yet-due waiter is untouched, and `earliest_due` picks the minimum. -/
theorem commandManager_update_earliestDue_witness :
    (CMupdate [⟨(77, 1), ⟨77, 1, []⟩, 5, 7, 0⟩, ⟨(83, 2), ⟨83, 2, []⟩, 9, 2, 1⟩] 6).1 =
      [⟨(77, 1), ⟨77, 1, []⟩, 13, 7, 0⟩, ⟨(83, 2), ⟨83, 2, []⟩, 9, 2, 1⟩] ∧
    (CMupdate [⟨(77, 1), ⟨77, 1, []⟩, 5, 7, 0⟩, ⟨(83, 2), ⟨83, 2, []⟩, 9, 2, 1⟩] 6).2 =
      [⟨77, 1, []⟩] ∧
    (∀ w ∈ [⟨(77, 1), ⟨77, 1, []⟩, 5, 7, 0⟩, ⟨(83, 2), ⟨83, 2, []⟩, 9, 2, 1⟩],
      (5 : Nat) ≤ Waiting.due w) := by
  obtain ⟨h1, h2, h3, h4⟩ :=
    commandManager_update_earliestDue_spec
      [⟨(77, 1), ⟨77, 1, []⟩, 5, 7, 0⟩, ⟨(83, 2), ⟨83, 2, []⟩, 9, 2, 1⟩] 6
  refine ⟨by rw [h1]; decide, by rw [h2]; decide, (h4 5 (by decide)).2⟩

/-! ## Catalogue lookup lemmas -/

theorem alookup_nil {κ α : Type} [DecidableEq κ] (k : κ) :
    alookup ([] : List (κ × α)) k = none := rfl

theorem alookup_cons {κ α : Type} [DecidableEq κ] (e : κ × α) (l : List (κ × α)) (k : κ) :
    alookup (e :: l) k = if e.1 = k then some e.2 else alookup l k := by
  unfold alookup
  rw [List.find?_cons]
  by_cases h : e.1 = k <;> simp [h]

theorem alookup_aupdate {κ α : Type} [DecidableEq κ] (l : List (κ × α)) (k : κ)
    (f : α → α) (i : κ) :
    alookup (aupdate l k f) i =
      if i = k then (alookup l i).map f else alookup l i := by
  induction l with
  | nil => simp [aupdate, alookup_nil]
  | cons e rest ih =>
    simp only [aupdate, List.map_cons]
    simp only [aupdate] at ih
    by_cases hik : i = k
    · subst hik
      by_cases hek : e.1 = i
      · rw [if_pos hek, alookup_cons, alookup_cons, if_pos hek, if_pos hek,
          if_pos rfl]
        rfl
      · rw [if_neg hek, alookup_cons, alookup_cons, if_neg hek, if_neg hek,
          if_pos rfl, ih, if_pos rfl]
    · have hki : ¬ k = i := fun h => hik h.symm
      by_cases hek : e.1 = k
      · have hei : ¬ e.1 = i := by rw [hek]; exact hki
        rw [if_pos hek, alookup_cons, alookup_cons, if_neg hei, if_neg hei,
          if_neg hik, ih, if_neg hik]
      · by_cases hei : e.1 = i
        · rw [if_neg hek, alookup_cons, alookup_cons, if_pos hei, if_pos hei,
            if_neg hik]
        · rw [if_neg hek, alookup_cons, alookup_cons, if_neg hei, if_neg hei,
            if_neg hik, ih, if_neg hik]

theorem alookup_map_snd {κ α : Type} [DecidableEq κ] (l : List (κ × α))
    (g : α → α) (i : κ) :
    alookup (l.map (fun e => (e.1, g e.2))) i = (alookup l i).map g := by
  induction l with
  | nil => simp [alookup_nil]
  | cons e rest ih =>
    by_cases hei : e.1 = i <;> simp [alookup_cons, hei, ih]

theorem alookup_sortedInsert_ne (l : List (Nat × Sensor)) (k : Nat) (v : Sensor)
    (i : Nat) (hik : i ≠ k) :
    alookup (sortedInsert l k v) i = alookup l i := by
  have hki : ¬ k = i := fun h => hik h.symm
  induction l with
  | nil =>
    unfold sortedInsert
    rw [alookup_cons, if_neg hki, alookup_nil]
  | cons e rest ih =>
    unfold sortedInsert
    by_cases h1 : k < e.1
    · rw [if_pos h1, alookup_cons, if_neg hki]
    · by_cases h2 : k = e.1
      · have hei : ¬ e.1 = i := fun h => hki (h2.trans h)
        rw [if_neg h1, if_pos h2, alookup_cons, if_neg hki, alookup_cons,
          if_neg hei]
      · rw [if_neg h1, if_neg h2, alookup_cons, alookup_cons]
        by_cases hei : e.1 = i
        · rw [if_pos hei, if_pos hei]
        · rw [if_neg hei, if_neg hei, ih]

theorem alookup_sortedInsert_self (l : List (Nat × Sensor)) (k : Nat) (v : Sensor) :
    alookup (sortedInsert l k v) k = some v := by
  induction l with
  | nil => simp [sortedInsert, alookup_cons]
  | cons e rest ih =>
    unfold sortedInsert
    by_cases h1 : k < e.1
    · simp [h1, alookup_cons]
    · by_cases h2 : k = e.1
      · simp [h1, h2, alookup_cons]
      · have hne : ¬ e.1 = k := fun h => h2 h.symm
        simp [h1, h2, alookup_cons, hne, ih]

theorem alookup_mapInsert_self (l : List (List Nat × Nat)) (k : List Nat) (v : Nat) :
    alookup (mapInsert l k v) k = some v := by
  induction l with
  | nil => simp [mapInsert, alookup_cons]
  | cons e rest ih =>
    unfold mapInsert at ih ⊢
    by_cases hek : e.1 = k
    · rw [List.find?_cons_of_pos _ (by simpa using hek)]
      simp [List.map_cons, hek, alookup_cons]
    · rw [List.find?_cons_of_neg _ (by simpa using hek)]
      by_cases hr : (rest.find? (fun e => e.1 = k)).isSome
      · rw [if_pos hr] at ih ⊢
        simp [List.map_cons, hek, alookup_cons, ih]
      · rw [if_neg hr] at ih ⊢
        simpa [alookup_cons, hek] using ih

/-- `extractValue` (via `castF32`) agrees with the spec-worded extraction. -/
theorem extractValue_eq_specExtractV (c : CodeSend) :
    extractValue c = specExtractV c := by
  unfold extractValue specExtractV
  cases hf : c.find ascV with
  | none => rfl
  | some p =>
    obtain ⟨l, v⟩ := p
    cases v <;> rfl

/-- Branch enumeration of `Sensors.put`. -/
theorem put_cases (s : Sensors) (code : CodeSend) (now : Nat) :
    (code.letter ≠ ascS ∧ Sensors.put s code now = (s, false)) ∨
    (code.letter = ascS ∧ extractValue code = none ∧
      Sensors.put s code now = (s, false)) ∨
    (∃ v sen0, code.letter = ascS ∧ extractValue code = some v ∧
      alookup s.sensors code.number = some sen0 ∧
      Sensors.put s code now =
        ({ s with
            sensors := aupdate s.sensors code.number
              (fun sen => { sen with lastUpdate := now, value := v }) },
          true)) ∨
    (∃ v, code.letter = ascS ∧ extractValue code = some v ∧
      alookup s.sensors code.number = none ∧
      ((code.find ascN = none ∧ Sensors.put s code now = (s, false)) ∨
       (∃ np, code.find ascN = some np ∧ code.find ascU = none ∧
         Sensors.put s code now = (s, false)) ∨
       (∃ np up, code.find ascN = some np ∧ code.find ascU = some up ∧
         Sensors.put s code now =
           ({ s with
               map := mapInsert s.map (castBytes np.value) code.number
               sensors := sortedInsert s.sensors code.number
                 { name := castBytes np.value
                   unit := castBytes up.value
                   id := code.number
                   value := v
                   lastUpdate := now
                   auto := false } },
             true)))) := by
  by_cases hl : code.letter ≠ ascS
  · exact Or.inl ⟨hl, by unfold Sensors.put; rw [if_pos hl]⟩
  · have hl2 : code.letter = ascS := not_not.mp hl
    cases hv : extractValue code with
    | none =>
      refine Or.inr (Or.inl ⟨hl2, rfl, ?_⟩)
      unfold Sensors.put
      rw [if_neg hl]
      simp only [hv]
    | some v =>
      cases hn : alookup s.sensors code.number with
      | some sen0 =>
        refine Or.inr (Or.inr (Or.inl ⟨v, sen0, hl2, rfl, rfl, ?_⟩))
        unfold Sensors.put
        rw [if_neg hl]
        simp only [hv, hn]
      | none =>
        refine Or.inr (Or.inr (Or.inr ⟨v, hl2, rfl, rfl, ?_⟩))
        cases hfn : code.find ascN with
        | none =>
          refine Or.inl ⟨rfl, ?_⟩
          unfold Sensors.put
          rw [if_neg hl]
          simp only [hv, hn, hfn]
        | some np =>
          cases hfu : code.find ascU with
          | none =>
            refine Or.inr (Or.inl ⟨np, rfl, rfl, ?_⟩)
            unfold Sensors.put
            rw [if_neg hl]
            simp only [hv, hn, hfn, hfu]
          | some up =>
            refine Or.inr (Or.inr ⟨np, up, rfl, rfl, ?_⟩)
            unfold Sensors.put
            rw [if_neg hl]
            simp only [hv, hn, hfn, hfu]

/-- `alookup` through the autos re-mapping of the catalogue. -/
theorem alookup_autosMap (l : List (Nat × Sensor)) (bits i : Nat) :
    alookup (l.map (fun e => (e.1, { e.2 with auto := ((bits >>> e.2.id) &&& 1) = 1 }))) i =
      (alookup l i).map (fun x => { x with auto := ((bits >>> x.id) &&& 1) = 1 }) := by
  induction l with
  | nil => simp [alookup_nil]
  | cons e rest ih =>
    rw [List.map_cons, alookup_cons, alookup_cons]
    dsimp only
    by_cases hei : e.1 = i
    · rw [if_pos hei, if_pos hei]
      rfl
    · rw [if_neg hei, if_neg hei]
      exact ih

/-! ## Claim C4 -/

/-- Claim C4: `Sensors::put` refines the spec's `ingest_sensor`: it applies
only to `S` records, extracts `V` as a float (native numeric value or
UTF-8 decimal string), updates `value` and `last_update` of an existing
sensor, otherwise requires `N` and `U` and creates the sensor with its
name-index entry, and returns accepted exactly when a value was
installed. -/
theorem sensors_put_spec (s : Sensors) (code : CodeSend) (now : Nat) :
    Sensors.put s code now = ingestSensorSpec s code now ∧
    ((Sensors.put s code now).2 = true ↔
      code.letter = ascS ∧ (specExtractV code).isSome ∧
        ((alookup s.sensors code.number).isSome ∨
          ((code.find ascN).isSome ∧ (code.find ascU).isSome))) ∧
    (∀ v, specExtractV code = some v → (Sensors.put s code now).2 = true →
      ∃ sen, alookup (Sensors.put s code now).1.sensors code.number = some sen ∧
        sen.value = v ∧ sen.lastUpdate = now) ∧
    ((Sensors.put s code now).2 = false → (Sensors.put s code now).1 = s) := by
  have hspec := extractValue_eq_specExtractV code
  rcases put_cases s code now with ⟨hl, hput⟩ | ⟨hl, hv, hput⟩ |
    ⟨v, sen0, hl, hv, hn, hput⟩ | ⟨v, hl, hv, hn, hrest⟩
  · refine ⟨?_, ?_, ?_, ?_⟩
    · rw [hput]
      unfold ingestSensorSpec
      rw [if_neg hl]
    · rw [hput]
      simp [hl]
    · intro v hv2 hacc
      rw [hput] at hacc
      simp at hacc
    · intro _
      rw [hput]
  · have hv2 : specExtractV code = none := hspec.symm.trans hv
    refine ⟨?_, ?_, ?_, ?_⟩
    · rw [hput]
      unfold ingestSensorSpec
      rw [if_pos hl]
      simp only [hv2]
    · rw [hput]
      simp [hv2]
    · intro v hv3
      rw [hv2] at hv3
      exact absurd hv3 (by simp)
    · intro _
      rw [hput]
  · have hv2 : specExtractV code = some v := hspec.symm.trans hv
    refine ⟨?_, ?_, ?_, ?_⟩
    · rw [hput]
      unfold ingestSensorSpec
      rw [if_pos hl]
      simp only [hv2, hn, Option.isSome_some, if_pos]
    · rw [hput]
      simp [hl, hv2, hn]
    · intro v2 hv3 _
      have hvv : v = v2 := Option.some.inj (hv2.symm.trans hv3)
      subst hvv
      rw [hput]
      dsimp only
      rw [alookup_aupdate, if_pos rfl, hn]
      exact ⟨_, rfl, rfl, rfl⟩
    · intro hfalse
      rw [hput] at hfalse
      simp at hfalse
  · have hv2 : specExtractV code = some v := hspec.symm.trans hv
    rcases hrest with ⟨hfn, hput⟩ | ⟨np, hfn, hfu, hput⟩ | ⟨np, up, hfn, hfu, hput⟩
    · refine ⟨?_, ?_, ?_, ?_⟩
      · rw [hput]
        unfold ingestSensorSpec
        rw [if_pos hl]
        simp only [hv2, hn, hfn, Option.isSome_none, Bool.false_eq_true, if_false]
      · rw [hput]
        simp [hv2, hn, hfn]
      · intro v2 hv3 hacc
        rw [hput] at hacc
        simp at hacc
      · intro _
        rw [hput]
    · refine ⟨?_, ?_, ?_, ?_⟩
      · rw [hput]
        unfold ingestSensorSpec
        rw [if_pos hl]
        simp only [hv2, hn, hfn, hfu, Option.isSome_none, Bool.false_eq_true, if_false]
      · rw [hput]
        simp [hv2, hn, hfn, hfu]
      · intro v2 hv3 hacc
        rw [hput] at hacc
        simp at hacc
      · intro _
        rw [hput]
    · refine ⟨?_, ?_, ?_, ?_⟩
      · rw [hput]
        unfold ingestSensorSpec
        rw [if_pos hl]
        simp only [hv2, hn, hfn, hfu, Option.isSome_none, Bool.false_eq_true, if_false]
      · rw [hput]
        simp [hl, hv2, hn, hfn, hfu]
      · intro v2 hv3 _
        have hvv : v = v2 := Option.some.inj (hv2.symm.trans hv3)
        subst hvv
        rw [hput]
        dsimp only
        rw [alookup_sortedInsert_self]
        exact ⟨_, rfl, rfl, rfl⟩
      · intro hfalse
        rw [hput] at hfalse
        simp at hfalse

/-- Claim C4 (witness): creating a sensor from a concrete `S1` record on an
empty catalogue agrees with the spec model and is accepted. -/
theorem sensors_put_spec_witness :
    Sensors.put (Sensors.mk [] [])
        (CodeSend.mk ascS 1
          [⟨ascN, .bytes [116]⟩, ⟨ascU, .bytes [67]⟩, ⟨ascV, .float 77⟩]) 5 =
      ingestSensorSpec (Sensors.mk [] [])
        (CodeSend.mk ascS 1
          [⟨ascN, .bytes [116]⟩, ⟨ascU, .bytes [67]⟩, ⟨ascV, .float 77⟩]) 5 ∧
    (Sensors.put (Sensors.mk [] [])
        (CodeSend.mk ascS 1
          [⟨ascN, .bytes [116]⟩, ⟨ascU, .bytes [67]⟩, ⟨ascV, .float 77⟩]) 5).2 = true := by
  have h := sensors_put_spec (Sensors.mk [] [])
    (CodeSend.mk ascS 1
      [⟨ascN, .bytes [116]⟩, ⟨ascU, .bytes [67]⟩, ⟨ascV, .float 77⟩]) 5
  exact ⟨h.1, h.2.1.mpr ⟨by decide, by decide, Or.inr ⟨by decide, by decide⟩⟩⟩

/-! ## Claim C8 -/

/-- Claim C8: once a sensor is in the catalogue, no catalogue operation
changes its `name` or `unit`: further `S` records touch only `value` and
`last_update`, and autos ingestion touches only `auto`. -/
theorem sensor_name_unit_immutable (s : Sensors) (code : CodeSend) (now : Nat)
    (i : Nat) (sen : Sensor) (h : alookup s.sensors i = some sen) :
    (∃ sen2, alookup (Sensors.put s code now).1.sensors i = some sen2 ∧
      sen2.name = sen.name ∧ sen2.unit = sen.unit ∧ sen2.id = sen.id ∧
      sen2.auto = sen.auto) ∧
    (∃ sen3, alookup (ingestAutos s code).1.sensors i = some sen3 ∧
      sen3.name = sen.name ∧ sen3.unit = sen.unit ∧ sen3.id = sen.id ∧
      sen3.value = sen.value ∧ sen3.lastUpdate = sen.lastUpdate) := by
  constructor
  · rcases put_cases s code now with ⟨_, hput⟩ | ⟨_, _, hput⟩ |
      ⟨v, sen0, _, _, hn, hput⟩ | ⟨v, _, _, hn, hrest⟩
    · rw [hput]
      exact ⟨sen, h, rfl, rfl, rfl, rfl⟩
    · rw [hput]
      exact ⟨sen, h, rfl, rfl, rfl, rfl⟩
    · rw [hput]
      dsimp only
      rw [alookup_aupdate]
      by_cases hik : i = code.number
      · rw [if_pos hik, h]
        exact ⟨_, rfl, rfl, rfl, rfl, rfl⟩
      · rw [if_neg hik]
        exact ⟨sen, h, rfl, rfl, rfl, rfl⟩
    · rcases hrest with ⟨_, hput⟩ | ⟨np, _, _, hput⟩ | ⟨np, up, hfn, hfu, hput⟩
      · rw [hput]
        exact ⟨sen, h, rfl, rfl, rfl, rfl⟩
      · rw [hput]
        exact ⟨sen, h, rfl, rfl, rfl, rfl⟩
      · have hik : i ≠ code.number := by
          intro he
          rw [he, hn] at h
          exact Option.noConfusion h
        rw [hput]
        dsimp only
        rw [alookup_sortedInsert_ne _ _ _ _ hik]
        exact ⟨sen, h, rfl, rfl, rfl, rfl⟩
  · unfold ingestAutos
    by_cases hm : code.letter = ascM ∧ code.number = 102
    · rw [if_pos hm]
      dsimp only
      rw [alookup_autosMap, h]
      exact ⟨_, rfl, rfl, rfl, rfl, rfl, rfl⟩
    · rw [if_neg hm]
      exact ⟨sen, h, rfl, rfl, rfl, rfl, rfl⟩

/-- Claim C8 (witness): a concrete second reading of sensor 1 leaves its
name and unit in place. -/
theorem sensor_name_unit_immutable_witness :
    (Option.map Sensor.name
      (alookup (Sensors.put
        (Sensors.mk [(1, ⟨[116], [67], 1, .ofInt 0, 0, false⟩)] [([116], 1)])
        (CodeSend.mk ascS 1 [⟨ascV, .int 3⟩]) 9).1.sensors 1)) = some [116] ∧
    (Option.map Sensor.unit
      (alookup (Sensors.put
        (Sensors.mk [(1, ⟨[116], [67], 1, .ofInt 0, 0, false⟩)] [([116], 1)])
        (CodeSend.mk ascS 1 [⟨ascV, .int 3⟩]) 9).1.sensors 1)) = some [67] := by
  obtain ⟨⟨sen2, hl2, hn2, hu2, _, _⟩, _⟩ :=
    sensor_name_unit_immutable
      (Sensors.mk [(1, ⟨[116], [67], 1, .ofInt 0, 0, false⟩)] [([116], 1)])
      (CodeSend.mk ascS 1 [⟨ascV, .int 3⟩]) 9 1 ⟨[116], [67], 1, .ofInt 0, 0, false⟩
      (by decide)
  rw [hl2]
  simp [hn2, hu2]

/-! ## Ordering and membership lemmas for the catalogue -/

theorem mem_sortedInsert (l : List (Nat × Sensor)) (k : Nat) (v : Sensor)
    (x : Nat × Sensor) (hx : x ∈ sortedInsert l k v) : x ∈ l ∨ x = (k, v) := by
  induction l with
  | nil =>
    unfold sortedInsert at hx
    rcases List.mem_cons.mp hx with h | h
    · exact Or.inr h
    · cases h
  | cons e rest ih =>
    unfold sortedInsert at hx
    by_cases h1 : k < e.1
    · rw [if_pos h1] at hx
      rcases List.mem_cons.mp hx with h | h
      · exact Or.inr h
      · exact Or.inl h
    · rw [if_neg h1] at hx
      by_cases h2 : k = e.1
      · rw [if_pos h2] at hx
        rcases List.mem_cons.mp hx with h | h
        · exact Or.inr h
        · exact Or.inl (List.mem_cons_of_mem _ h)
      · rw [if_neg h2] at hx
        rcases List.mem_cons.mp hx with h | h
        · exact Or.inl (h ▸ List.mem_cons_self _ _)
        · rcases ih h with h3 | h3
          · exact Or.inl (List.mem_cons_of_mem _ h3)
          · exact Or.inr h3

theorem mem_sortedInsert_self (l : List (Nat × Sensor)) (k : Nat) (v : Sensor) :
    (k, v) ∈ sortedInsert l k v := by
  induction l with
  | nil =>
    unfold sortedInsert
    exact List.mem_cons_self _ _
  | cons e rest ih =>
    unfold sortedInsert
    by_cases h1 : k < e.1
    · rw [if_pos h1]
      exact List.mem_cons_self _ _
    · rw [if_neg h1]
      by_cases h2 : k = e.1
      · rw [if_pos h2]
        exact List.mem_cons_self _ _
      · rw [if_neg h2]
        exact List.mem_cons_of_mem _ ih

theorem mem_sortedInsert_of_mem (l : List (Nat × Sensor)) (k : Nat) (v : Sensor)
    (x : Nat × Sensor) (hx : x ∈ l) (hne : x.1 ≠ k) : x ∈ sortedInsert l k v := by
  induction l with
  | nil => cases hx
  | cons e rest ih =>
    unfold sortedInsert
    by_cases h1 : k < e.1
    · rw [if_pos h1]
      exact List.mem_cons_of_mem _ hx
    · rw [if_neg h1]
      by_cases h2 : k = e.1
      · rw [if_pos h2]
        rcases List.mem_cons.mp hx with h | h
        · exact absurd (by rw [h, ← h2]) hne
        · exact List.mem_cons_of_mem _ h
      · rw [if_neg h2]
        rcases List.mem_cons.mp hx with h | h
        · exact h ▸ List.mem_cons_self _ _
        · exact List.mem_cons_of_mem _ (ih h)

theorem sortedInsert_pairwise (l : List (Nat × Sensor)) (k : Nat) (v : Sensor)
    (hp : l.Pairwise (fun a b => a.1 < b.1)) :
    (sortedInsert l k v).Pairwise (fun a b => a.1 < b.1) := by
  induction l with
  | nil =>
    unfold sortedInsert
    exact List.pairwise_singleton _ _
  | cons e rest ih =>
    obtain ⟨he, hrest⟩ := List.pairwise_cons.mp hp
    unfold sortedInsert
    by_cases h1 : k < e.1
    · rw [if_pos h1]
      refine List.pairwise_cons.mpr ⟨?_, hp⟩
      intro x hx
      rcases List.mem_cons.mp hx with h | h
      · rw [h]
        exact h1
      · exact Nat.lt_trans h1 (he x h)
    · rw [if_neg h1]
      by_cases h2 : k = e.1
      · rw [if_pos h2]
        refine List.pairwise_cons.mpr ⟨?_, hrest⟩
        intro x hx
        rw [h2]
        exact he x hx
      · rw [if_neg h2]
        refine List.pairwise_cons.mpr ⟨?_, ih hrest⟩
        intro x hx
        rcases mem_sortedInsert rest k v x hx with h | h
        · exact he x h
        · rw [h]
          exact Nat.lt_of_le_of_ne (Nat.le_of_not_lt h1) (fun hh => h2 hh.symm)

theorem alookup_some_mem {κ α : Type} [DecidableEq κ] (l : List (κ × α)) (k : κ)
    (a : α) (h : alookup l k = some a) : (k, a) ∈ l := by
  induction l with
  | nil => exact absurd h (by rw [alookup_nil]; exact Option.noConfusion)
  | cons e rest ih =>
    rw [alookup_cons] at h
    by_cases hek : e.1 = k
    · rw [if_pos hek] at h
      have ha : e.2 = a := Option.some.inj h
      have he : e = (k, a) := by
        cases e
        cases hek
        cases ha
        rfl
      exact he ▸ List.mem_cons_self _ _
    · rw [if_neg hek] at h
      exact List.mem_cons_of_mem _ (ih h)

/-! ## Claim C10 -/

/-- Claim C10: creating a sensor whose name collides with an existing
sensor of a different id overwrites the name-index entry to the new id;
both sensors stay in the catalogue and in id-ordered iteration, but
`get(name)` now returns only the newer sensor. -/
theorem put_name_collision (s : Sensors) (code : CodeSend) (now : Nat)
    (oldId : Nat) (oldSen : Sensor) (v : F32) (np up : ParamSend)
    (h1 : alookup s.sensors oldId = some oldSen)
    (hsorted : s.sensors.Pairwise (fun a b => a.1 < b.1))
    (hl : code.letter = ascS)
    (hnum : alookup s.sensors code.number = none)
    (hv : extractValue code = some v)
    (hn : code.find ascN = some np)
    (hname : castBytes np.value = oldSen.name)
    (hu : code.find ascU = some up) :
    alookup (Sensors.put s code now).1.sensors oldId = some oldSen ∧
    alookup (Sensors.put s code now).1.sensors code.number =
      some ⟨oldSen.name, castBytes up.value, code.number, v, now, false⟩ ∧
    alookup (Sensors.put s code now).1.map oldSen.name = some code.number ∧
    (Sensors.put s code now).1.get oldSen.name =
      some ⟨oldSen.name, castBytes up.value, code.number, v, now, false⟩ ∧
    (Sensors.put s code now).1.sensors.Pairwise (fun a b => a.1 < b.1) ∧
    (oldId, oldSen) ∈ (Sensors.put s code now).1.sensors ∧
    ((code.number, ⟨oldSen.name, castBytes up.value, code.number, v, now, false⟩) :
        Nat × Sensor) ∈ (Sensors.put s code now).1.sensors := by
  have hid : oldId ≠ code.number := by
    intro he
    rw [he, hnum] at h1
    exact Option.noConfusion h1
  rcases put_cases s code now with ⟨hL, _⟩ | ⟨_, hV, _⟩ |
    ⟨v2, sen0, _, _, hN, _⟩ | ⟨v2, _, hV, hN, hrest⟩
  · exact absurd hl hL
  · exact absurd (hv.symm.trans hV) (by simp)
  · exact absurd (hnum.symm.trans hN) (by simp)
  · have hvv : v = v2 := Option.some.inj (hv.symm.trans hV)
    subst hvv
    rcases hrest with ⟨hfn, _⟩ | ⟨np2, hfn, hfu, _⟩ | ⟨np2, up2, hfn, hfu, hput⟩
    · exact absurd (hn.symm.trans hfn) (by simp)
    · exact absurd (hu.symm.trans hfu) (by simp)
    · have hnp : np = np2 := Option.some.inj (hn.symm.trans hfn)
      have hup : up = up2 := Option.some.inj (hu.symm.trans hfu)
      subst hnp
      subst hup
      rw [hname] at hput
      rw [hput]
      dsimp only
      refine ⟨?_, ?_, ?_, ?_, ?_, ?_, ?_⟩
      · rw [alookup_sortedInsert_ne _ _ _ _ hid]
        exact h1
      · exact alookup_sortedInsert_self _ _ _
      · exact alookup_mapInsert_self _ _ _
      · unfold Sensors.get
        rw [alookup_mapInsert_self]
        dsimp only
        rw [alookup_sortedInsert_self]
      · exact sortedInsert_pairwise _ _ _ hsorted
      · exact mem_sortedInsert_of_mem _ _ _ _ (alookup_some_mem _ _ _ h1) hid
      · exact mem_sortedInsert_self _ _ _

/-- Claim C10 (witness): a concrete collision — sensor 2 reuses sensor 1's
name, and `get` then returns the id-2 sensor while both remain stored. -/
theorem put_name_collision_witness :
    (Sensors.put
        (Sensors.mk [(1, ⟨[116], [67], 1, .ofInt 0, 0, false⟩)] [([116], 1)])
        (CodeSend.mk ascS 2
          [⟨ascN, .bytes [116]⟩, ⟨ascU, .bytes [70]⟩, ⟨ascV, .int 4⟩]) 7).1.get [116] =
      some ⟨[116], [70], 2, .ofInt 4, 7, false⟩ ∧
    alookup (Sensors.put
        (Sensors.mk [(1, ⟨[116], [67], 1, .ofInt 0, 0, false⟩)] [([116], 1)])
        (CodeSend.mk ascS 2
          [⟨ascN, .bytes [116]⟩, ⟨ascU, .bytes [70]⟩, ⟨ascV, .int 4⟩]) 7).1.sensors 1 =
      some ⟨[116], [67], 1, .ofInt 0, 0, false⟩ := by
  obtain ⟨ha, hb, hc, hd, he, hf, hg⟩ :=
    put_name_collision
      (Sensors.mk [(1, ⟨[116], [67], 1, .ofInt 0, 0, false⟩)] [([116], 1)])
      (CodeSend.mk ascS 2
        [⟨ascN, .bytes [116]⟩, ⟨ascU, .bytes [70]⟩, ⟨ascV, .int 4⟩]) 7
      1 ⟨[116], [67], 1, .ofInt 0, 0, false⟩ (.ofInt 4)
      ⟨ascN, .bytes [116]⟩ ⟨ascU, .bytes [70]⟩
      (by decide) (by decide) (by decide) (by decide) (by decide) (by decide)
      (by decide) (by decide)
  exact ⟨hd, ha⟩

/-! ## Claim C2 -/

set_option maxRecDepth 4000 in
/-- Claim C2: ingesting an `M102` autos record with parameters in the
order `V=x, E=a, D=b` folds them left-to-right over the 64-bit bitset and
then every catalogued sensor's auto flag equals
`(((x | (1 << a)) & ~(1 << b)) >> id) & 1` (with the 64-bit complement
written through `u64Mask`). -/
theorem ingestAutos_formula (s : Sensors) (x a b : Nat)
    (hx : x < 2 ^ 64) (ha : a < 64) (hb : b < 64)
    (i : Nat) (sen : Sensor) (h : alookup s.sensors i = some sen) :
    alookup (ingestAutos s
        (CodeSend.mk ascM 102
          [⟨ascV, .int x⟩, ⟨ascE, .int a⟩, ⟨ascD, .int b⟩])).1.sensors i =
      some { sen with
        auto := decide
          ((((x ||| (1 <<< a)) &&& (u64Mask ^^^ (1 <<< b))) >>> sen.id) &&& 1 = 1) } := by
  have hsa : (1 <<< a) % 2 ^ 64 = 1 <<< a := by
    apply Nat.mod_eq_of_lt
    rw [Nat.shiftLeft_eq, one_mul]
    exact Nat.pow_lt_pow_right (by norm_num) ha
  have hsb : (1 <<< b) % 2 ^ 64 = 1 <<< b := by
    apply Nat.mod_eq_of_lt
    rw [Nat.shiftLeft_eq, one_mul]
    exact Nat.pow_lt_pow_right (by norm_num) hb
  have hor : (x ||| (1 <<< a)) < 2 ^ 64 := by
    rw [Nat.shiftLeft_eq, one_mul]
    exact Nat.or_lt_two_pow hx (Nat.pow_lt_pow_right (by norm_num) ha)
  have hbits : autosBitset [⟨ascV, .int x⟩, ⟨ascE, .int a⟩, ⟨ascD, .int b⟩] =
      (x ||| (1 <<< a)) &&& (u64Mask ^^^ (1 <<< b)) := by
    have ha256 : (a : Int) < 256 := by
      have : a < 256 := Nat.lt_trans ha (by norm_num)
      exact_mod_cast this
    have hb256 : (b : Int) < 256 := by
      have : b < 256 := Nat.lt_trans hb (by norm_num)
      exact_mod_cast this
    unfold autosBitset
    simp only [List.foldl_cons, List.foldl_nil]
    unfold autosStep
    simp only [castU8, castU64, ascV, ascE, ascD]
    norm_num [Int.toNat_natCast, ha256, hb256]
    have hN : (18446744073709551616 : Nat) = 2 ^ 64 := by norm_num
    rw [hN, hsa, hsb]
    simp only [u64Mask]
    rw [Nat.and_pow_two_sub_one_of_lt_two_pow hx,
      Nat.and_pow_two_sub_one_of_lt_two_pow hor]
  unfold ingestAutos
  rw [if_pos ⟨rfl, rfl⟩]
  dsimp only
  rw [alookup_autosMap, h, hbits]
  rfl

/-- Claim C2 (witness): the spec's scenario 4 — `M102 [V=15, E=5, D=1]` on
sensors `0..5` — read back at sensor 5, whose auto flag is set. -/
theorem ingestAutos_formula_witness :
    alookup (ingestAutos
        (Sensors.mk
          [(0, ⟨[65], [66], 0, .ofInt 0, 0, false⟩),
           (1, ⟨[65], [66], 1, .ofInt 0, 0, false⟩),
           (2, ⟨[65], [66], 2, .ofInt 0, 0, false⟩),
           (3, ⟨[65], [66], 3, .ofInt 0, 0, false⟩),
           (4, ⟨[65], [66], 4, .ofInt 0, 0, false⟩),
           (5, ⟨[65], [66], 5, .ofInt 0, 0, false⟩)] [])
        (CodeSend.mk ascM 102
          [⟨ascV, .int (15 : Nat)⟩, ⟨ascE, .int (5 : Nat)⟩,
           ⟨ascD, .int (1 : Nat)⟩])).1.sensors 5 =
      some ⟨[65], [66], 5, .ofInt 0, 0, true⟩ := by
  have h := ingestAutos_formula
    (Sensors.mk
      [(0, ⟨[65], [66], 0, .ofInt 0, 0, false⟩),
       (1, ⟨[65], [66], 1, .ofInt 0, 0, false⟩),
       (2, ⟨[65], [66], 2, .ofInt 0, 0, false⟩),
       (3, ⟨[65], [66], 3, .ofInt 0, 0, false⟩),
       (4, ⟨[65], [66], 4, .ofInt 0, 0, false⟩),
       (5, ⟨[65], [66], 5, .ofInt 0, 0, false⟩)] [])
    15 5 1 (by norm_num) (by norm_num) (by norm_num)
    5 ⟨[65], [66], 5, .ofInt 0, 0, false⟩ (by decide)
  rw [h]
  decide

/-! ## Rate-limit lemmas for the station link -/

theorem sendWrite_inv (s : SendState) (now : Nat) (r : Bool)
    (h0 : 0 ≤ s.bytesSent) (h60 : s.bytesSent ≤ 60) :
    0 ≤ (sendWrite s now r).1.bytesSent ∧ (sendWrite s now r).1.bytesSent ≤ 60 := by
  unfold sendWrite
  by_cases h : (60 : Int) - s.bytesSent ≤ 0
  · rw [if_pos h]
    exact ⟨h0, h60⟩
  · rw [if_neg h]
    dsimp only
    have hlen : (min s.toSend.length (60 - s.bytesSent).toNat : Int) ≤ 60 - s.bytesSent := by
      have h1 : min s.toSend.length (60 - s.bytesSent).toNat ≤ (60 - s.bytesSent).toNat :=
        Nat.min_le_right _ _
      have h2 : ((60 - s.bytesSent).toNat : Int) = 60 - s.bytesSent :=
        Int.toNat_of_nonneg (by omega)
      omega
    constructor
    · omega
    · omega

theorem sendWrite_flag (s : SendState) (now : Nat) (r : Bool) :
    (sendWrite s now r).2.didReset = r ∧ (sendWrite s now r).2.time = now := by
  unfold sendWrite
  by_cases h : (60 : Int) - s.bytesSent ≤ 0
  · rw [if_pos h]
    exact ⟨rfl, rfl⟩
  · rw [if_neg h]
    exact ⟨rfl, rfl⟩

theorem sendWrite_bytes (s : SendState) (now : Nat) (r : Bool) :
    (sendWrite s now r).1.bytesSent =
      s.bytesSent + ((sendWrite s now r).2.written : Int) := by
  unfold sendWrite
  by_cases h : (60 : Int) - s.bytesSent ≤ 0
  · rw [if_pos h]
    simp
  · rw [if_neg h]

theorem sendStep_inv (s : SendState) (now : Nat) (arrived : List Nat)
    (h0 : 0 ≤ s.bytesSent) (h60 : s.bytesSent ≤ 60) :
    0 ≤ (sendStep s now arrived).1.bytesSent ∧
      (sendStep s now arrived).1.bytesSent ≤ 60 := by
  unfold sendStep
  by_cases he : (s.toSend ++ arrived).isEmpty
  · rw [if_pos he]
    exact ⟨h0, h60⟩
  · rw [if_neg he]
    by_cases hr : now - s.lastSend > 150
    · rw [if_pos hr]
      exact sendWrite_inv _ _ _ (by norm_num) (by norm_num)
    · rw [if_neg hr]
      exact sendWrite_inv _ _ _ h0 h60

theorem sendStep_noReset_bytes (s : SendState) (now : Nat) (arrived : List Nat)
    (h : (sendStep s now arrived).2.didReset = false) :
    (sendStep s now arrived).1.bytesSent =
      s.bytesSent + ((sendStep s now arrived).2.written : Int) := by
  unfold sendStep
  by_cases he : (s.toSend ++ arrived).isEmpty
  · rw [if_pos he]
    simp
  · rw [if_neg he]
    by_cases hr : now - s.lastSend > 150
    · exfalso
      unfold sendStep at h
      rw [if_neg he, if_pos hr] at h
      rw [(sendWrite_flag _ _ _).1] at h
      exact Bool.noConfusion h
    · rw [if_neg hr]
      exact sendWrite_bytes _ _ _

theorem sendRun_inv (inputs : List (Nat × List Nat)) (s : SendState)
    (h0 : 0 ≤ s.bytesSent) (h60 : s.bytesSent ≤ 60) :
    0 ≤ (sendRun s inputs).1.bytesSent ∧ (sendRun s inputs).1.bytesSent ≤ 60 := by
  induction inputs generalizing s with
  | nil => exact ⟨h0, h60⟩
  | cons p rest ih =>
    obtain ⟨k0, k60⟩ := sendStep_inv s p.1 p.2 h0 h60
    exact ih _ k0 k60

theorem sendRun_noReset_sum (inputs : List (Nat × List Nat)) (s : SendState)
    (hno : ∀ e ∈ (sendRun s inputs).2, e.didReset = false) :
    (sendRun s inputs).1.bytesSent =
      s.bytesSent + (totalWritten (sendRun s inputs).2 : Int) := by
  induction inputs generalizing s with
  | nil => simp [sendRun, totalWritten]
  | cons p rest ih =>
    have hstep : (sendStep s p.1 p.2).2.didReset = false := by
      apply hno
      show _ ∈ (sendRun s (p :: rest)).2
      unfold sendRun
      exact List.mem_cons_self _ _
    have hrest : ∀ e ∈ (sendRun (sendStep s p.1 p.2).1 rest).2, e.didReset = false := by
      intro e he
      apply hno
      show _ ∈ (sendRun s (p :: rest)).2
      unfold sendRun
      exact List.mem_cons_of_mem _ he
    have hb := sendStep_noReset_bytes s p.1 p.2 hstep
    have hr := ih (sendStep s p.1 p.2).1 hrest
    unfold sendRun
    dsimp only
    rw [hr, hb]
    unfold totalWritten
    dsimp only [List.map_cons, List.sum_cons]
    push_cast
    ring

/-! ## Claim C3 -/

/-- Claim C3 (counterexample): a concrete execution in which 120 bytes are
written inside one sliding 150 ms window (the budget resets at 151 ms
although 60 bytes were written at 100-150 ms), refuting the claimed
60-byte sliding-window bound. -/
theorem link_sliding_window_cex :
    60 < windowBytes (sendRun ⟨0, 0, []⟩
      [(100, List.replicate 30 0), (150, List.replicate 30 0),
       (151, List.replicate 30 0), (152, List.replicate 30 0)]).2 100 := by
  decide

/-- Claim C3 (amended): within each budget window — from one reset of the
rate state to the next, a reset happening only when the last send is older
than 150 ms — the link writes at most 60 bytes in total (starting from any
in-budget state). -/
theorem link_budget_window_bound (s : SendState) (inputs : List (Nat × List Nat))
    (h0 : 0 ≤ s.bytesSent) (h60 : s.bytesSent ≤ 60)
    (hno : ∀ e ∈ (sendRun s inputs).2, e.didReset = false) :
    totalWritten (sendRun s inputs).2 ≤ 60 := by
  have hsum := sendRun_noReset_sum inputs s hno
  have hinv := sendRun_inv inputs s h0 h60
  omega

/-- Claim C3 (witness): a 30-byte write inside one budget window. -/
theorem link_budget_window_bound_witness :
    totalWritten (sendRun ⟨0, 0, []⟩ [(100, List.replicate 30 0)]).2 ≤ 60 :=
  link_budget_window_bound ⟨0, 0, []⟩ [(100, List.replicate 30 0)]
    (by decide) (by decide) (by decide)

/-! ## Claim C9 -/

/-- Claim C9: the send path keeps `0 ≤ bytes_sent ≤ 60` across iterations;
when the allotment `60 - bytes_sent` is exhausted and no reset applies,
the write is skipped entirely and the pending bytes stay buffered; and a
reset-free stretch of iterations writes at most 60 bytes in total. -/
theorem link_rate_invariant (s : SendState) (now : Nat) (arrived : List Nat)
    (inputs : List (Nat × List Nat)) :
    (0 ≤ s.bytesSent → s.bytesSent ≤ 60 →
      0 ≤ (sendStep s now arrived).1.bytesSent ∧
        (sendStep s now arrived).1.bytesSent ≤ 60) ∧
    (¬ (s.toSend ++ arrived).isEmpty = true → ¬ now - s.lastSend > 150 →
      (60 : Int) - s.bytesSent ≤ 0 →
      (sendStep s now arrived).2.written = 0 ∧
        (sendStep s now arrived).1.toSend = s.toSend ++ arrived ∧
        (sendStep s now arrived).1.bytesSent = s.bytesSent) ∧
    (0 ≤ s.bytesSent → s.bytesSent ≤ 60 →
      (∀ e ∈ (sendRun s inputs).2, e.didReset = false) →
      totalWritten (sendRun s inputs).2 ≤ 60) := by
  refine ⟨sendStep_inv s now arrived, ?_, ?_⟩
  · intro he hr hallot
    unfold sendStep
    rw [if_neg he, if_neg hr]
    unfold sendWrite
    rw [if_pos hallot]
    exact ⟨rfl, rfl, rfl⟩
  · intro h0 h60 hno
    have hsum := sendRun_noReset_sum inputs s hno
    have hinv := sendRun_inv inputs s h0 h60
    omega

/-- Claim C9 (witness): with the budget exhausted (`bytes_sent = 60`) and
pending bytes, the write is skipped and the buffer is kept. -/
theorem link_rate_invariant_witness :
    (sendStep ⟨0, 60, [1, 2, 3]⟩ 100 []).2.written = 0 ∧
    (sendStep ⟨0, 60, [1, 2, 3]⟩ 100 []).1.toSend = [1, 2, 3] := by
  obtain ⟨_, h2, _⟩ := link_rate_invariant ⟨0, 60, [1, 2, 3]⟩ 100 [] []
  obtain ⟨hw, ht, _⟩ := h2 (by decide) (by decide) (by decide)
  exact ⟨hw, ht⟩

/-! ## Scheduler lemmas -/

/-- Closed form of the maturation pass at time `t` with the captured
`cmd_due`. -/
theorem maturePass_closed (s : SchedState) (t : Nat) :
    maturePass s t (earliestDue s.sys.waiting) =
      ({ sys :=
          { waiting := s.sys.waiting.map
              (fun w => if w.due ≤ t then { w with due := t + w.retry } else w)
            sensors := s.sys.sensors }
         rapid := if s.rapid ∧ s.rapidDue ≤ t then false else s.rapid
         rapidDue := s.rapidDue
         rapidUpdateDue :=
           if s.rapid ∧ s.rapidUpdateDue ≤ t then t + 2500 else s.rapidUpdateDue
         updateDue := if s.updateDue ≤ t then t + 60000 else s.updateDue },
        (s.sys.waiting.filter (fun w => w.due ≤ t)).map (fun w => w.code),
        (if s.updateDue ≤ t then [false] else []) ++
          (if s.rapid ∧ s.rapidUpdateDue ≤ t then [true] else [])) := by
  have hpass :
      (match earliestDue s.sys.waiting with
        | some due =>
          if due ≤ t then CMupdate s.sys.waiting t else (s.sys.waiting, [])
        | none => (s.sys.waiting, [])) =
      (s.sys.waiting.map
        (fun w => if w.due ≤ t then { w with due := t + w.retry } else w),
       (s.sys.waiting.filter (fun w => w.due ≤ t)).map (fun w => w.code)) := by
    cases hcd : earliestDue s.sys.waiting with
    | none =>
      have hw : s.sys.waiting = [] := (earliestDue_eq_none_iff _).mp hcd
      rw [hw]
      rfl
    | some d =>
      obtain ⟨_, hall⟩ := (earliestDue_eq_some_iff _ _).mp hcd
      dsimp only
      by_cases hd : d ≤ t
      · rw [if_pos hd]
        exact Prod.ext (CMupdate_fst _ _) (CMupdate_snd _ _)
      · rw [if_neg hd]
        have hno : ∀ w ∈ s.sys.waiting, ¬ w.due ≤ t := by
          intro w hw hle
          exact hd (Nat.le_trans (hall w hw) hle)
        have hmap : s.sys.waiting.map
            (fun w => if w.due ≤ t then { w with due := t + w.retry } else w) =
            s.sys.waiting := by
          have hid : ∀ w ∈ s.sys.waiting,
              (if w.due ≤ t then { w with due := t + w.retry } else w) = w :=
            fun w hw => if_neg (hno w hw)
          exact (List.map_congr_left hid).trans (List.map_id _)
        have hfil : s.sys.waiting.filter (fun w => w.due ≤ t) = [] :=
          List.filter_eq_nil_iff.mpr (fun w hw => by simpa using hno w hw)
        rw [hmap, hfil]
        rfl
  unfold maturePass
  rw [hpass]
  dsimp only
  by_cases h1 : s.updateDue ≤ t <;> by_cases hr : s.rapid <;>
    by_cases hru : s.rapidUpdateDue ≤ t <;> by_cases hrd : s.rapidDue ≤ t <;>
      simp [h1, hr, hru, hrd]

/-! ## Claim C7 -/

/-- Claim C7 (counterexample): with `timeout = now` (here both 100, the
normal update being due) and an event already pending on the channel, the
iteration processes the event and fires no matured timer: `updates` stays
empty and `update_due` is not pushed to `now + 60 s`, refuting "whenever
timeout ≤ now every matured timer fires in one pass before the next
iteration". -/
theorem sched_fire_at_timeout_cex :
    schedTimeout (SchedState.mk ⟨[], ⟨[], []⟩⟩ false 0 0 100) = 100 ∧
    (SchedState.mk ⟨[], ⟨[], []⟩⟩ false 0 0 100).updateDue ≤ 100 ∧
    (schedStep (SchedState.mk ⟨[], ⟨[], []⟩⟩ false 0 0 100) 100
      (some (ChannelType.request "x")) 100).updates = [] ∧
    (schedStep (SchedState.mk ⟨[], ⟨[], []⟩⟩ false 0 0 100) 100
      (some (ChannelType.request "x")) 100).state.updateDue = 100 := by
  decide

/-- Claim C7 (amended): the loop's timeout is the minimum of `update_due`
and the command manager's earliest due, folding in `rapid_due` and
`rapid_update_due` when rapid is set; and whenever `timeout < now` — or
the wait ends with no event, which is what happens at `timeout = now` with
an empty channel — every matured timer fires in one pass before the next
iteration: the command manager ticks exactly its due waiters, a normal
update is requested with `update_due := now + 60 s` when due, a rapid
update is requested with `rapid_update_due := now + 2500 ms` when rapid
and due, and rapid is cleared when rapid and `rapid_due` is due. -/
theorem sched_timeout_and_fire (s : SchedState) (now : Nat)
    (msg : Option ChannelType) (now2 : Nat) :
    schedTimeout s = schedTimeoutSpec s ∧
    (schedTimeout s < now → FireSpec s now (schedStep s now msg now2)) ∧
    (msg = none → ¬ schedTimeout s < now →
      FireSpec s now2 (schedStep s now msg now2)) := by
  refine ⟨?_, ?_, ?_⟩
  · unfold schedTimeout schedTimeoutSpec
    cases earliestDue s.sys.waiting with
    | none => rfl
    | some d =>
      dsimp only
      have hmin : (if d < s.updateDue then d else s.updateDue) = min d s.updateDue := by
        rw [Nat.min_def]
        split_ifs <;> omega
      rw [hmin]
  · intro ht
    unfold schedStep
    dsimp only
    rw [if_pos ht, maturePass_closed]
    exact ⟨rfl, rfl, rfl, rfl, rfl, rfl, rfl, rfl⟩
  · intro hm ht
    subst hm
    unfold schedStep
    dsimp only
    rw [if_neg ht, maturePass_closed]
    exact ⟨rfl, rfl, rfl, rfl, rfl, rfl, rfl, rfl⟩

/-- Claim C7 (witness): with `update_due = 50` matured and `timeout < now
= 100`, the pass requests one normal update and pushes `update_due` to
`100 + 60000`. -/
theorem sched_timeout_and_fire_witness :
    (schedStep (SchedState.mk ⟨[], ⟨[], []⟩⟩ false 0 0 50) 100 none 100).updates =
      [false] ∧
    (schedStep (SchedState.mk ⟨[], ⟨[], []⟩⟩ false 0 0 50) 100 none
      100).state.updateDue = 60100 := by
  obtain ⟨-, hfire, -⟩ :=
    sched_timeout_and_fire (SchedState.mk ⟨[], ⟨[], []⟩⟩ false 0 0 50) 100 none 100
  obtain ⟨-, -, hdue, hupd, -, -, -, -⟩ := hfire (by decide)
  constructor
  · rw [hupd]
    decide
  · rw [hdue]
    decide

end StationComms
